import Mathlib

/-!
# Verification of the investment-dao contracts

Shallow embedding of the two ink! contracts of this repository:

* `contracts/dao/lib.rs` — the `Governor` contract (`propose`, `vote`,
  `execute`).
* `contracts/governance-token/lib.rs` — the `GovernanceToken` contract
  (`new`, `transfer_to`, `weight`, `balance_of`).

Modelling conventions:

* `AccountId`, `Balance`, timestamps and `u64`/`u128` quantities are
  embedded as `Nat`.  The contracts are built with arithmetic overflow
  checks, so an overflowing operation aborts the whole transaction;
  none of the properties below concern overflow behaviour, and `Nat`
  arithmetic coincides with the machine arithmetic on all non-aborting
  executions.  The one place the source performs a narrowing cast
  (`as u64` in `weight`) is embedded explicitly as `% 2 ^ 64`.
* `ink::storage::Mapping` is embedded as a function into `Option`
  (for the two value maps) or into `Bool` (for the `votes` set, whose
  stored value is the unit type).  Insertion is pointwise update.
* Host-environment reads become explicit arguments: `block_timestamp`
  and `caller` are passed to the operations that read them, and the
  contract's own native balance (`env().balance()`, debited by
  `env().transfer`) is carried as a `balance` field of the state.
* The cross-contract weight query inside `vote` becomes an explicit
  `weight` argument (the value the oracle returns), and the treasury
  transfer inside `execute` becomes an explicit `transferOk` argument
  (whether the host reports the transfer as successful).
* Each message returns the post-state paired with the source's
  `Result<(), DaoError>`, embedded as `Except DaoError Unit`.  The
  off-chain semantics the contract's own unit tests run under is used:
  returning `Err` does not undo state writes already performed.
-/

namespace InvestmentDao

/-- Pointwise insertion into a `Mapping` embedded as `α → Option β`. -/
def mapInsert {α β : Type} [DecidableEq α] (m : α → Option β) (k : α) (v : β) :
    α → Option β :=
  fun q => if q = k then some v else m q

/-- Pointwise insertion into a `Mapping` with unit values (a set),
embedded as `α → Bool`. -/
def setInsert {α : Type} [DecidableEq α] (s : α → Bool) (k : α) : α → Bool :=
  fun q => if q = k then true else s q

/-- `VoteType` from `contracts/dao/lib.rs`. -/
inductive VoteType where
  | Against
  | For
  deriving DecidableEq, Repr

/-- `DaoError` from `contracts/dao/lib.rs`. -/
inductive DaoError where
  | AmountShouldNotBeZero
  | AmountShouldNotExceedTheBalance
  | DurationError
  | QuorumNotReached
  | ProposalNotAccepted
  | ProposalNotFound
  | ProposalAlreadyExecuted
  | VotePeriodEnded
  | AlreadyVoted
  | TransferFailed
  deriving DecidableEq, Repr

/-- `Proposal` from `contracts/dao/lib.rs`. -/
structure Proposal where
  «to» : Nat
  amount : Nat
  vote_start : Nat
  vote_end : Nat
  executed : Bool
  deriving DecidableEq, Repr

/-- `ProposalVote` from `contracts/dao/lib.rs` (the running tally).
The source names the second field `against_vote`, singular. -/
structure ProposalVote where
  for_votes : Nat
  against_vote : Nat
  deriving DecidableEq, Repr

/-- The `Governor` storage struct from `contracts/dao/lib.rs`, together
with the contract's native balance (host state read by `env().balance()`
and debited by `env().transfer`).  Note that `proposal_votes` is keyed
by the full `Proposal` record, exactly as in the source
(`Mapping<Proposal, ProposalVote>`), not by `ProposalId`. -/
structure Governor where
  proposals : Nat → Option Proposal
  proposal_votes : Proposal → Option ProposalVote
  votes : Nat × Nat → Bool
  next_proposal_id : Nat
  quorum : Nat
  governance_token : Nat
  balance : Nat

namespace Governor

/-- The payable constructor `Governor::new`; `endowment` is the native
balance transferred at instantiation. -/
def new (governance_token quorum endowment : Nat) : Governor :=
  { proposals := fun _ => none
    proposal_votes := fun _ => none
    votes := fun _ => false
    next_proposal_id := 0
    quorum := quorum
    governance_token := governance_token
    balance := endowment }

/-- `Governor::propose`.  `time` is `env().block_timestamp()`. -/
def propose (g : Governor) (time «to» amount duration : Nat) :
    Governor × Except DaoError Unit :=
  if amount = 0 then
    (g, .error .AmountShouldNotBeZero)
  else if g.balance < amount then
    (g, .error .AmountShouldNotExceedTheBalance)
  else if duration = 0 then
    (g, .error .DurationError)
  else
    let proposal : Proposal :=
      { «to» := «to»
        amount := amount
        vote_start := time
        vote_end := time + duration * 60
        executed := false }
    let g1 : Governor := { g with next_proposal_id := g.next_proposal_id + 1 }
    ({ g1 with proposals := mapInsert g1.proposals g1.next_proposal_id proposal },
      .ok ())

/-- `Governor::vote`.  `time` is `env().block_timestamp()`, `caller` is
`env().caller()`, and `weight` is the value returned by the
cross-contract `weight(caller)` call to the governance token. -/
def vote (g : Governor) (time caller pid : Nat) (v : VoteType) (weight : Nat) :
    Governor × Except DaoError Unit :=
  match g.proposals pid with
  | none => (g, .error .ProposalNotFound)
  | some proposal =>
    if proposal.executed then
      (g, .error .ProposalAlreadyExecuted)
    else if proposal.vote_end < time then
      (g, .error .VotePeriodEnded)
    else if g.votes (pid, caller) then
      (g, .error .AlreadyVoted)
    else
      let g1 : Governor := { g with votes := setInsert g.votes (pid, caller) }
      let proposal_vote : ProposalVote :=
        match g1.proposal_votes proposal with
        | some votes =>
          match v with
          | .Against =>
            { against_vote := votes.against_vote + weight
              for_votes := votes.for_votes }
          | .For =>
            { against_vote := votes.against_vote
              for_votes := votes.for_votes + weight }
        | none =>
          match v with
          | .Against => { against_vote := weight, for_votes := 0 }
          | .For => { against_vote := 0, for_votes := weight }
      ({ g1 with
          proposal_votes := mapInsert g1.proposal_votes proposal proposal_vote },
        .ok ())

/-- `Governor::execute`.  `transferOk` is whether the host reports
`env().transfer(proposal.to, proposal.amount)` as successful; a
successful transfer debits the contract's balance. -/
def execute (g : Governor) (transferOk : Bool) (pid : Nat) :
    Governor × Except DaoError Unit :=
  match g.proposals pid with
  | none => (g, .error .ProposalNotFound)
  | some proposal =>
    if proposal.executed then
      (g, .error .ProposalAlreadyExecuted)
    else
      match g.proposal_votes proposal with
      | some proposal_votes =>
        if proposal_votes.for_votes + proposal_votes.against_vote < g.quorum then
          (g, .error .QuorumNotReached)
        else if proposal_votes.for_votes < proposal_votes.against_vote then
          (g, .error .ProposalNotAccepted)
        else
          let g1 : Governor :=
            { g with
                proposals := mapInsert g.proposals pid { proposal with executed := true } }
          if transferOk then
            ({ g1 with balance := g1.balance - proposal.amount }, .ok ())
          else
            (g1, .error .TransferFailed)
      | none => (g, .error .QuorumNotReached)

/-- The validation prefix of `Governor::vote` (everything before the
first state write): returns the proposal when all four checks pass. -/
def voteChecks (g : Governor) (time caller pid : Nat) : Except DaoError Proposal :=
  match g.proposals pid with
  | none => .error .ProposalNotFound
  | some proposal =>
    if proposal.executed then .error .ProposalAlreadyExecuted
    else if proposal.vote_end < time then .error .VotePeriodEnded
    else if g.votes (pid, caller) then .error .AlreadyVoted
    else .ok proposal

/-- The first state write of `Governor::vote`: recording the ballot
`(proposal_id, caller)`. -/
def recordBallot (g : Governor) (pid caller : Nat) : Governor :=
  { g with votes := setInsert g.votes (pid, caller) }

/-- The tail of `Governor::vote` after the oracle call: fold the
returned weight into the tally stored at the proposal record. -/
def applyWeight (g : Governor) (proposal : Proposal) (v : VoteType) (weight : Nat) :
    Governor :=
  let proposal_vote : ProposalVote :=
    match g.proposal_votes proposal with
    | some votes =>
      match v with
      | .Against =>
        { against_vote := votes.against_vote + weight, for_votes := votes.for_votes }
      | .For =>
        { against_vote := votes.against_vote, for_votes := votes.for_votes + weight }
    | none =>
      match v with
      | .Against => { against_vote := weight, for_votes := 0 }
      | .For => { against_vote := 0, for_votes := weight }
  { g with proposal_votes := mapInsert g.proposal_votes proposal proposal_vote }

end Governor

/-- One transition of the governor: any message invocation with
arbitrary host inputs, or the contract receiving native funds. -/
inductive Step : Governor → Governor → Prop where
  | propose : ∀ g time «to» amount duration,
      Step g (g.propose time «to» amount duration).1
  | vote : ∀ g time caller pid v weight,
      Step g (g.vote time caller pid v weight).1
  | execute : ∀ g transferOk pid,
      Step g (g.execute transferOk pid).1
  | deposit : ∀ g amount,
      Step g { g with balance := g.balance + amount }

/-- Governor states reachable from the constructor by message calls. -/
inductive Reachable : Governor → Prop where
  | new : ∀ governance_token quorum endowment,
      Reachable (Governor.new governance_token quorum endowment)
  | step : ∀ g g2, Reachable g → Step g g2 → Reachable g2

/-- The `GovernanceToken` storage from
`contracts/governance-token/lib.rs`, restricted to the fields its
`weight`, `balance_of` and `transfer_to` messages read and write.  (The
openbrush PSP22 ledger written by `_mint_to` in the constructor is a
separate storage field that these messages never touch.) -/
structure GovernanceToken where
  balances : Nat → Nat
  total_supply : Nat
  circulating_supply : Nat

namespace GovernanceToken

/-- `GovernanceToken::new`: the custom `balances` map starts empty,
`total_supply` is the initial supply, `circulating_supply` is zero.
The metadata arguments are irrelevant to these fields and omitted. -/
def new (initial_supply : Nat) : GovernanceToken :=
  { balances := fun _ => 0
    total_supply := initial_supply
    circulating_supply := 0 }

/-- `GovernanceToken::balance_of`. -/
def balance_of (t : GovernanceToken) (account : Nat) : Nat :=
  t.balances account

/-- `GovernanceToken::transfer_to`: credits only while
`amount + circulating_supply < total_supply`, otherwise silently does
nothing. -/
def transfer_to (t : GovernanceToken) (recipient amount : Nat) : GovernanceToken :=
  if amount + t.circulating_supply < t.total_supply then
    { t with
        balances := fun a =>
          if a = recipient then t.balance_of recipient + amount else t.balances a
        circulating_supply := t.circulating_supply + amount }
  else
    t

/-- `GovernanceToken::weight`: `(balance * 100 / total_supply) as u64`.
The narrowing cast is the explicit `% 2 ^ 64`. -/
def weight (t : GovernanceToken) (account : Nat) : Nat :=
  t.balances account * 100 / t.total_supply % 2 ^ 64

end GovernanceToken

/-- Token states reachable from the constructor by `transfer_to` calls. -/
inductive TokenReachable : GovernanceToken → Prop where
  | new : ∀ initial_supply, TokenReachable (GovernanceToken.new initial_supply)
  | step : ∀ t recipient amount,
      TokenReachable t → TokenReachable (t.transfer_to recipient amount)

/-- A sample proposal used to instantiate the universally quantified
theorems below: pay 100 units to account 9, voting window `[0, 60]`. -/
def pEx : Proposal :=
  { «to» := 9, amount := 100, vote_start := 0, vote_end := 60, executed := false }

/-- A sample governor holding `pEx` under identifier 1 with the given
tally (if any), quorum 50, treasury balance 1000. -/
def sampleGov (tally : Option ProposalVote) : Governor :=
  { proposals := mapInsert (fun _ => none) 1 pEx
    proposal_votes := fun q => if q = pEx then tally else none
    votes := fun _ => false
    next_proposal_id := 1
    quorum := 50
    governance_token := 1
    balance := 1000 }

/-- First proposal of the twin-proposal run: `propose(9, 100, 1)` at
time 0 from a fresh governor. -/
def gTwinA : Governor := ((Governor.new 1 50 1000).propose 0 9 100 1).1

/-- Second, identical proposal: the stored records of identifiers 1 and
2 are equal, so they share one entry of the record-keyed tally map. -/
def gTwinB : Governor := (gTwinA.propose 0 9 100 1).1

/-- Account 7 votes For on proposal 1 with weight 10. -/
def gTwinC : Governor := (gTwinB.vote 0 7 1 .For 10).1

/-- Well-formedness of the proposal store: every stored proposal sits at
an identifier in `[1, next_proposal_id]`, its voting window is
nonempty, and its amount is positive. -/
def GovInv (g : Governor) : Prop :=
  ∀ pid p, g.proposals pid = some p →
    1 ≤ pid ∧ pid ≤ g.next_proposal_id ∧
      p.vote_start < p.vote_end ∧ 0 < p.amount

lemma propose_ok_state (g : Governor) (time «to» amount duration : Nat)
    (h0 : amount ≠ 0) (h1 : ¬ g.balance < amount) (h2 : duration ≠ 0) :
    g.propose time «to» amount duration =
      ({ g with
          next_proposal_id := g.next_proposal_id + 1
          proposals := mapInsert g.proposals (g.next_proposal_id + 1)
            { «to» := «to», amount := amount, vote_start := time,
              vote_end := time + duration * 60, executed := false } },
        .ok ()) := by
  simp [Governor.propose, h0, h1, h2]

lemma propose_fst (g : Governor) (time «to» amount duration : Nat) :
    (g.propose time «to» amount duration).1 = g ∨
      (amount ≠ 0 ∧ duration ≠ 0 ∧
        (g.propose time «to» amount duration).1 =
          { g with
              next_proposal_id := g.next_proposal_id + 1
              proposals := mapInsert g.proposals (g.next_proposal_id + 1)
                { «to» := «to», amount := amount, vote_start := time,
                  vote_end := time + duration * 60, executed := false } }) := by
  by_cases h0 : amount = 0
  · left; simp [Governor.propose, h0]
  · by_cases h1 : g.balance < amount
    · left; simp [Governor.propose, h0, h1]
    · by_cases h2 : duration = 0
      · left; simp [Governor.propose, h0, h1, h2]
      · right; exact ⟨h0, h2, by rw [propose_ok_state g time «to» amount duration h0 h1 h2]⟩

lemma vote_fst (g : Governor) (time caller pid : Nat) (v : VoteType) (w : Nat) :
    (g.vote time caller pid v w).1.proposals = g.proposals ∧
      (g.vote time caller pid v w).1.next_proposal_id = g.next_proposal_id ∧
      (g.vote time caller pid v w).1.balance = g.balance := by
  unfold Governor.vote
  rcases h : g.proposals pid with _ | p
  · simp
  · simp only [h]
    split_ifs <;> simp

lemma execute_fst (g : Governor) (transferOk : Bool) (pid : Nat) :
    (g.execute transferOk pid).1 = g ∨
      (∃ p, g.proposals pid = some p ∧ p.executed = false ∧
        (g.execute transferOk pid).1.proposals =
          mapInsert g.proposals pid { p with executed := true } ∧
        (g.execute transferOk pid).1.next_proposal_id = g.next_proposal_id) := by
  unfold Governor.execute
  rcases h : g.proposals pid with _ | p
  · left; simp
  · simp only [h]
    by_cases hex : p.executed
    · left; simp [hex]
    · rcases ht : g.proposal_votes p with _ | t
      · left; simp [hex, ht]
      · simp only [hex, ht]
        by_cases hq : t.for_votes + t.against_vote < g.quorum
        · left; simp [hq]
        · by_cases hacc : t.for_votes < t.against_vote
          · left; simp [hq, hacc]
          · right
            refine ⟨p, rfl, by simpa using hex, ?_, ?_⟩
            · by_cases htok : transferOk <;> simp [hq, hacc, htok]
            · by_cases htok : transferOk <;> simp [hq, hacc, htok]

/-- Every reachable governor state satisfies `GovInv`. -/
lemma reachable_govInv (g : Governor) (hg : Reachable g) : GovInv g := by
  induction hg with
  | new gt q e =>
    intro pid p hp
    simp [Governor.new] at hp
  | step g1 g2 _ hstep ih =>
    cases hstep with
    | propose time «to» amount duration =>
      rcases propose_fst g1 time «to» amount duration with h | ⟨h0, h2, h⟩
      · rw [h]; exact ih
      · rw [h]
        intro pid p hp
        by_cases hpid : pid = g1.next_proposal_id + 1
        · subst hpid
          simp [mapInsert] at hp
          subst hp
          refine ⟨Nat.succ_le_succ (Nat.zero_le _), le_refl _, ?_, ?_⟩
          · have : 0 < duration * 60 :=
              Nat.mul_pos (Nat.pos_of_ne_zero h2) (by norm_num)
            simp only []
            omega
          · exact Nat.pos_of_ne_zero h0
        · simp only [mapInsert, if_neg hpid] at hp
          rcases ih pid p hp with ⟨ha, hb, hc, hd⟩
          exact ⟨ha, le_trans hb (Nat.le_succ _), hc, hd⟩
    | vote time caller pid v w =>
      rcases vote_fst g1 time caller pid v w with ⟨hp, hn, _⟩
      intro q p hq
      rw [hp] at hq
      rcases ih q p hq with ⟨ha, hb, hc, hd⟩
      exact ⟨ha, hn ▸ hb, hc, hd⟩
    | execute transferOk pid =>
      rcases execute_fst g1 transferOk pid with h | ⟨p, hp, _, hmaps, hn⟩
      · rw [h]; exact ih
      · intro q q2 hq
        rw [hmaps] at hq
        by_cases hqpid : q = pid
        · subst hqpid
          simp [mapInsert] at hq
          rcases ih q p hp with ⟨ha, hb, hc, hd⟩
          subst hq
          exact ⟨ha, hn ▸ hb, hc, hd⟩
        · simp only [mapInsert, if_neg hqpid] at hq
          rcases ih q q2 hq with ⟨ha, hb, hc, hd⟩
          exact ⟨ha, hn ▸ hb, hc, hd⟩
    | deposit amount =>
      intro pid p hp
      exact ih pid p hp

/-- Unfolding `voteChecks` on success: all four checks passed. -/
lemma voteChecks_ok_elim (g : Governor) (time caller pid : Nat) (p : Proposal)
    (h : g.voteChecks time caller pid = .ok p) :
    g.proposals pid = some p ∧ p.executed = false ∧
      ¬ p.vote_end < time ∧ g.votes (pid, caller) = false := by
  unfold Governor.voteChecks at h
  rcases hp : g.proposals pid with _ | q
  · rw [hp] at h; cases h
  · rw [hp] at h
    by_cases hex : q.executed
    · simp [hex] at h
    · by_cases ht : q.vote_end < time
      · simp [hex, ht] at h
      · by_cases hv : g.votes (pid, caller)
        · simp [hex, ht, hv] at h
        · simp [hex, ht, hv] at h
          subst h
          exact ⟨rfl, by simpa using hex, ht, by simpa using hv⟩

/-- The success path of `Governor::vote` factors as: record the ballot,
then fold the oracle weight into the tally. -/
lemma vote_ok_state (g : Governor) (time caller pid : Nat) (p : Proposal)
    (hp : g.proposals pid = some p) (hex : p.executed = false)
    (ht : ¬ p.vote_end < time) (hv : g.votes (pid, caller) = false)
    (v : VoteType) (w : Nat) :
    g.vote time caller pid v w =
      ((g.recordBallot pid caller).applyWeight p v w, .ok ()) := by
  cases v <;> rcases h2 : g.proposal_votes p with _ | t <;>
    simp [Governor.vote, Governor.recordBallot, Governor.applyWeight,
      hp, hex, ht, hv, h2]

/-- No operation ever lowers a component of a stored tally. -/
lemma step_tally_mono (gA gB : Governor) (h : Step gA gB) (q : Proposal)
    (t : ProposalVote) (hq : gA.proposal_votes q = some t) :
    ∃ t2, gB.proposal_votes q = some t2 ∧
      t.for_votes ≤ t2.for_votes ∧ t.against_vote ≤ t2.against_vote := by
  cases h with
  | propose time «to» amount duration =>
    rcases propose_fst gA time «to» amount duration with h2 | ⟨_, _, h2⟩ <;>
      rw [h2] <;> exact ⟨t, hq, le_refl _, le_refl _⟩
  | vote time caller pid v w =>
    rcases hp : gA.proposals pid with _ | p
    · unfold Governor.vote
      rw [hp]
      exact ⟨t, hq, le_refl _, le_refl _⟩
    · by_cases hex : p.executed
      · unfold Governor.vote
        rw [hp]
        simp only [hex, if_true]
        exact ⟨t, hq, le_refl _, le_refl _⟩
      · by_cases ht : p.vote_end < time
        · unfold Governor.vote
          rw [hp]
          simp only [hex, Bool.false_eq_true, if_false, ht, if_true]
          exact ⟨t, hq, le_refl _, le_refl _⟩
        · by_cases hv : gA.votes (pid, caller)
          · unfold Governor.vote
            rw [hp]
            simp only [hex, Bool.false_eq_true, if_false, ht, hv, if_true]
            exact ⟨t, hq, le_refl _, le_refl _⟩
          · rw [vote_ok_state gA time caller pid p hp (by simpa using hex) ht
              (by simpa using hv) v w]
            by_cases hqp : q = p
            · subst hqp
              cases v with
              | For =>
                exact ⟨{ for_votes := t.for_votes + w, against_vote := t.against_vote },
                  by simp [Governor.applyWeight, Governor.recordBallot, mapInsert, hq],
                  Nat.le_add_right _ _, le_refl _⟩
              | Against =>
                exact ⟨{ for_votes := t.for_votes, against_vote := t.against_vote + w },
                  by simp [Governor.applyWeight, Governor.recordBallot, mapInsert, hq],
                  le_refl _, Nat.le_add_right _ _⟩
            · exact ⟨t,
                by simp [Governor.applyWeight, Governor.recordBallot, mapInsert, hqp, hq],
                le_refl _, le_refl _⟩
  | execute transferOk pid =>
    rcases execute_fst gA transferOk pid with h2 | ⟨p, hp, hex, hmaps, hn⟩
    · rw [h2]; exact ⟨t, hq, le_refl _, le_refl _⟩
    · refine ⟨t, ?_, le_refl _, le_refl _⟩
      have : (gA.execute transferOk pid).1.proposal_votes = gA.proposal_votes := by
        unfold Governor.execute
        rw [hp]
        simp only [hex, Bool.false_eq_true, if_false]
        rcases h3 : gA.proposal_votes p with _ | t3
        · simp
        · by_cases hqr : t3.for_votes + t3.against_vote < gA.quorum
          · simp [hqr]
          · by_cases hacc : t3.for_votes < t3.against_vote
            · simp [hqr, hacc]
            · by_cases htok : transferOk <;> simp [hqr, hacc, htok]
      rw [this]; exact hq
  | deposit amount =>
    exact ⟨t, hq, le_refl _, le_refl _⟩

/-- No operation deletes a stored proposal or changes any of its fields
other than `executed`, and `executed` is never reset to `false`. -/
lemma step_preserves_proposal (gA gB : Governor) (hInv : GovInv gA)
    (h : Step gA gB) (pid : Nat) (p : Proposal) (hp : gA.proposals pid = some p) :
    ∃ p2, gB.proposals pid = some p2 ∧ p2.«to» = p.«to» ∧
      p2.amount = p.amount ∧ p2.vote_start = p.vote_start ∧
      p2.vote_end = p.vote_end ∧ (p.executed = true → p2.executed = true) := by
  cases h with
  | propose time «to» amount duration =>
    rcases propose_fst gA time «to» amount duration with h2 | ⟨_, _, h2⟩
    · rw [h2]
      exact ⟨p, hp, rfl, rfl, rfl, rfl, fun hx => hx⟩
    · rw [h2]
      have hne : pid ≠ gA.next_proposal_id + 1 := by
        have := (hInv pid p hp).2.1
        omega
      refine ⟨p, ?_, rfl, rfl, rfl, rfl, fun hx => hx⟩
      simpa [mapInsert, hne] using hp
  | vote time caller pid2 v w =>
    rw [(vote_fst gA time caller pid2 v w).1]
    exact ⟨p, hp, rfl, rfl, rfl, rfl, fun hx => hx⟩
  | execute transferOk pid2 =>
    rcases execute_fst gA transferOk pid2 with h2 | ⟨q, hq, hex, hmaps, hn⟩
    · rw [h2]
      exact ⟨p, hp, rfl, rfl, rfl, rfl, fun hx => hx⟩
    · rw [hmaps]
      by_cases hpe : pid = pid2
      · subst hpe
        rw [hp] at hq
        cases hq
        exact ⟨{ p with executed := true },
          by simp [mapInsert], rfl, rfl, rfl, rfl, fun _ => rfl⟩
      · exact ⟨p, by simpa [mapInsert, hpe] using hp, rfl, rfl, rfl, rfl,
          fun hx => hx⟩
  | deposit amount =>
    exact ⟨p, hp, rfl, rfl, rfl, rfl, fun hx => hx⟩

/-- The proposal-identifier allocator never decreases. -/
lemma step_next_mono (gA gB : Governor) (h : Step gA gB) :
    gA.next_proposal_id ≤ gB.next_proposal_id := by
  cases h with
  | propose time «to» amount duration =>
    rcases propose_fst gA time «to» amount duration with h2 | ⟨_, _, h2⟩
    · rw [h2]
    · rw [h2]; exact Nat.le_succ _
  | vote time caller pid v w =>
    rw [(vote_fst gA time caller pid v w).2.1]
  | execute transferOk pid =>
    rcases execute_fst gA transferOk pid with h2 | ⟨q, _, _, _, hn⟩
    · rw [h2]
    · rw [hn]
  | deposit amount =>
    exact le_refl _

/-- Claim C4: `propose` returns `AmountShouldNotBeZero` when
`amount = 0`; otherwise `AmountShouldNotExceedTheBalance` when `amount`
exceeds the current treasury balance; otherwise `DurationError` when
`duration = 0` — checked in this order, first failure wins — and on
every error result the whole state is unchanged (no proposal stored,
counter unchanged). -/
theorem propose_validation_order (g : Governor) (time «to» amount duration : Nat) :
    (amount = 0 →
      g.propose time «to» amount duration = (g, .error .AmountShouldNotBeZero)) ∧
    (amount ≠ 0 → g.balance < amount →
      g.propose time «to» amount duration =
        (g, .error .AmountShouldNotExceedTheBalance)) ∧
    (amount ≠ 0 → ¬ g.balance < amount → duration = 0 →
      g.propose time «to» amount duration = (g, .error .DurationError)) := by
  refine ⟨fun h0 => ?_, fun h0 h1 => ?_, fun h0 h1 h2 => ?_⟩ <;>
    simp [Governor.propose, h0, *]

/-- Witness for C4: the three error branches at concrete inputs (a
fresh governor with treasury balance 1000). -/
theorem propose_validation_order_witness :
    (Governor.new 1 50 1000).propose 0 9 0 1 =
      (Governor.new 1 50 1000, .error .AmountShouldNotBeZero) ∧
    (Governor.new 1 50 1000).propose 0 9 1001 1 =
      (Governor.new 1 50 1000, .error .AmountShouldNotExceedTheBalance) ∧
    (Governor.new 1 50 1000).propose 0 9 100 0 =
      (Governor.new 1 50 1000, .error .DurationError) :=
  ⟨(propose_validation_order (Governor.new 1 50 1000) 0 9 0 1).1 rfl,
    (propose_validation_order (Governor.new 1 50 1000) 0 9 1001 1).2.1
      (by decide) (by decide),
    (propose_validation_order (Governor.new 1 50 1000) 0 9 100 0).2.2
      (by decide) (by decide) rfl⟩

/-- Claim C5: a successful `propose` at time `t` with duration `d`
stores, under identifier `next_proposal_id + 1`, a new proposal with
`vote_start = t`, `vote_end = t + d * 60`, `executed = false` and the
given destination and amount; the counter becomes `next_proposal_id +
1`; the slot was previously empty (identifiers start at 1, are strictly
increasing — the allocator never decreases at any step — and are never
reused); all other slots are untouched. -/
theorem propose_success_postcondition (g : Governor)
    (time «to» amount duration : Nat) (hg : Reachable g)
    (hok : (g.propose time «to» amount duration).2 = .ok ()) :
    (g.propose time «to» amount duration).1.proposals (g.next_proposal_id + 1) =
        some { «to» := «to», amount := amount, vote_start := time,
               vote_end := time + duration * 60, executed := false } ∧
      (g.propose time «to» amount duration).1.next_proposal_id =
        g.next_proposal_id + 1 ∧
      g.proposals (g.next_proposal_id + 1) = none ∧
      (∀ q, q ≠ g.next_proposal_id + 1 →
        (g.propose time «to» amount duration).1.proposals q = g.proposals q) ∧
      (∀ gA gB, Step gA gB → gA.next_proposal_id ≤ gB.next_proposal_id) := by
  by_cases h0 : amount = 0
  · simp [Governor.propose, h0] at hok
  · by_cases h1 : g.balance < amount
    · simp [Governor.propose, h0, h1] at hok
    · by_cases h2 : duration = 0
      · simp [Governor.propose, h0, h1, h2] at hok
      · rw [propose_ok_state g time «to» amount duration h0 h1 h2]
        refine ⟨by simp [mapInsert], rfl, ?_, ?_, step_next_mono⟩
        · rcases h3 : g.proposals (g.next_proposal_id + 1) with _ | p
          · rfl
          · have := (reachable_govInv g hg (g.next_proposal_id + 1) p h3).2.1
            omega
        · intro q hq
          simp [mapInsert, hq]

/-- Witness for C5: the first successful `propose` on a fresh governor
stores proposal 1 with window `[0, 60]` and advances the counter to 1. -/
theorem propose_success_postcondition_witness :
    ((Governor.new 1 50 1000).propose 0 9 100 1).1.proposals 1 =
        some { «to» := 9, amount := 100, vote_start := 0, vote_end := 60,
               executed := false } ∧
      ((Governor.new 1 50 1000).propose 0 9 100 1).1.next_proposal_id = 1 ∧
      (Governor.new 1 50 1000).proposals 1 = none := by
  have h := propose_success_postcondition (Governor.new 1 50 1000) 0 9 100 1
    (Reachable.new 1 50 1000) rfl
  exact ⟨by simpa using h.1, by simpa using h.2.1, h.2.2.1⟩

/-- Claim C1: `execute` validation: `ProposalNotFound` when no proposal
is stored under `proposal_id`; otherwise `ProposalAlreadyExecuted` when
the executed flag is set; otherwise `QuorumNotReached` when no tally
record exists for the proposal or the tally sum is below `quorum`;
otherwise `ProposalNotAccepted` when `for_votes < against_votes`; a tie
meeting quorum passes every check and proceeds to execution (the flag
gets set).  Checks are applied in exactly this order; each error leaves
the state unchanged. -/
theorem execute_validation_order (g : Governor) (transferOk : Bool) (pid : Nat) :
    (g.proposals pid = none →
      g.execute transferOk pid = (g, .error .ProposalNotFound)) ∧
    (∀ p, g.proposals pid = some p → p.executed = true →
      g.execute transferOk pid = (g, .error .ProposalAlreadyExecuted)) ∧
    (∀ p, g.proposals pid = some p → p.executed = false →
      g.proposal_votes p = none →
      g.execute transferOk pid = (g, .error .QuorumNotReached)) ∧
    (∀ p t, g.proposals pid = some p → p.executed = false →
      g.proposal_votes p = some t →
      t.for_votes + t.against_vote < g.quorum →
      g.execute transferOk pid = (g, .error .QuorumNotReached)) ∧
    (∀ p t, g.proposals pid = some p → p.executed = false →
      g.proposal_votes p = some t →
      ¬ t.for_votes + t.against_vote < g.quorum →
      t.for_votes < t.against_vote →
      g.execute transferOk pid = (g, .error .ProposalNotAccepted)) ∧
    (∀ p t, g.proposals pid = some p → p.executed = false →
      g.proposal_votes p = some t →
      ¬ t.for_votes + t.against_vote < g.quorum →
      ¬ t.for_votes < t.against_vote →
      (g.execute transferOk pid).1.proposals pid =
        some { p with executed := true }) := by
  refine ⟨fun h => ?_, fun p hp hex => ?_, fun p hp hex ht => ?_,
    fun p t hp hex ht hq => ?_, fun p t hp hex ht hq hacc => ?_,
    fun p t hp hex ht hq hacc => ?_⟩
  · simp [Governor.execute, h]
  · simp [Governor.execute, hp, hex]
  · simp [Governor.execute, hp, hex, ht]
  · simp [Governor.execute, hp, hex, ht, hq]
  · simp [Governor.execute, hp, hex, ht, hq, hacc]
  · by_cases htok : transferOk <;>
      simp [Governor.execute, hp, hex, ht, hq, hacc, htok, mapInsert]

/-- Witness for C1: a tie (25 for, 25 against) exactly meeting quorum 50
passes all checks; `execute` sets the executed flag. -/
theorem execute_validation_order_witness :
    ((sampleGov (some { for_votes := 25, against_vote := 25 })).execute
        true 1).1.proposals 1 =
      some { «to» := 9, amount := 100, vote_start := 0, vote_end := 60,
             executed := true } := by
  have h := (execute_validation_order
      (sampleGov (some { for_votes := 25, against_vote := 25 })) true 1).2.2.2.2.2
    pEx { for_votes := 25, against_vote := 25 }
    (by decide) rfl (by decide) (by decide) (by decide)
  simpa [pEx] using h

/-- Claim C3: `vote` validation: `ProposalNotFound` when the proposal
does not exist; otherwise `ProposalAlreadyExecuted` when executed;
otherwise `VotePeriodEnded` when the chain time strictly exceeds
`vote_end` (a vote at exactly `vote_end` is accepted); otherwise
`AlreadyVoted` when a ballot for `(proposal_id, caller)` is recorded —
in this order — and every error leaves the whole state (tally and
ballot set included) unchanged. -/
theorem vote_validation_order (g : Governor) (time caller pid : Nat)
    (v : VoteType) (w : Nat) :
    (g.proposals pid = none →
      g.vote time caller pid v w = (g, .error .ProposalNotFound)) ∧
    (∀ p, g.proposals pid = some p → p.executed = true →
      g.vote time caller pid v w = (g, .error .ProposalAlreadyExecuted)) ∧
    (∀ p, g.proposals pid = some p → p.executed = false →
      p.vote_end < time →
      g.vote time caller pid v w = (g, .error .VotePeriodEnded)) ∧
    (∀ p, g.proposals pid = some p → p.executed = false →
      ¬ p.vote_end < time → g.votes (pid, caller) = true →
      g.vote time caller pid v w = (g, .error .AlreadyVoted)) ∧
    (∀ p, g.proposals pid = some p → p.executed = false →
      ¬ p.vote_end < time → g.votes (pid, caller) = false →
      (g.vote time caller pid v w).2 = .ok ()) := by
  refine ⟨fun h => ?_, fun p hp hex => ?_, fun p hp hex ht => ?_,
    fun p hp hex ht hv => ?_, fun p hp hex ht hv => ?_⟩
  · simp [Governor.vote, h]
  · simp [Governor.vote, hp, hex]
  · simp [Governor.vote, hp, hex, ht]
  · simp [Governor.vote, hp, hex, ht, hv]
  · rw [vote_ok_state g time caller pid p hp hex ht hv v w]

/-- Witness for C3: a vote cast at exactly `vote_end = 60` is accepted. -/
theorem vote_validation_order_witness :
    ((sampleGov none).vote 60 7 1 .For 10).2 = .ok () :=
  (vote_validation_order (sampleGov none) 60 7 1 .For 10).2.2.2.2
    pEx (by decide) rfl (by decide) rfl

/-- Claim C6: `execute` never consults the chain clock (its embedding
takes no timestamp argument): when the tally already meets quorum with
`for_votes ≥ against_votes` on an unexecuted proposal, `execute`
succeeds and pays out even at a time strictly before `vote_end`, while
the voting window is still open. -/
theorem execute_ignores_voting_window (g : Governor) (pid : Nat) (p : Proposal)
    (t : ProposalVote) (time : Nat)
    (hp : g.proposals pid = some p) (hex : p.executed = false)
    (ht : g.proposal_votes p = some t)
    (hq : ¬ t.for_votes + t.against_vote < g.quorum)
    (hacc : ¬ t.for_votes < t.against_vote)
    (hopen : time < p.vote_end) :
    (g.execute true pid).2 = .ok () ∧
      (g.execute true pid).1.proposals pid = some { p with executed := true } ∧
      (g.execute true pid).1.balance = g.balance - p.amount := by
  refine ⟨?_, ?_, ?_⟩ <;> simp [Governor.execute, hp, hex, ht, hq, hacc, mapInsert]

/-- Witness for C6: at time 0, inside the window `[0, 60]`, a proposal
with tally 35/29 (quorum 50 met) executes successfully. -/
theorem execute_ignores_voting_window_witness :
    ((sampleGov (some { for_votes := 35, against_vote := 29 })).execute
        true 1).2 = .ok () ∧
      ((sampleGov (some { for_votes := 35, against_vote := 29 })).execute
        true 1).1.balance = 900 := by
  have h := execute_ignores_voting_window
    (sampleGov (some { for_votes := 35, against_vote := 29 })) 1 pEx
    { for_votes := 35, against_vote := 29 } 0
    (by decide) rfl (by decide) (by decide) (by decide) (by decide)
  exact ⟨h.1, by simpa [sampleGov, pEx] using h.2.2⟩

/-- Claim C2: when all checks pass, `execute` sets and persists the
executed flag before attempting the transfer: the stored flag is `true`
regardless of the transfer outcome.  A failed transfer yields
`TransferFailed` with the flag already set and the balance untouched;
any `execute` on a proposal whose stored flag is set fails fast with
`ProposalAlreadyExecuted` and no state change, so the proposal can
never be retried; a successful transfer yields success and debits the
treasury by the proposal's amount. -/
theorem execute_flag_before_transfer (g : Governor) (pid : Nat) (p : Proposal)
    (t : ProposalVote)
    (hp : g.proposals pid = some p) (hex : p.executed = false)
    (ht : g.proposal_votes p = some t)
    (hq : ¬ t.for_votes + t.against_vote < g.quorum)
    (hacc : ¬ t.for_votes < t.against_vote) :
    (∀ transferOk, (g.execute transferOk pid).1.proposals pid =
      some { p with executed := true }) ∧
    ((g.execute false pid).2 = .error .TransferFailed ∧
      (g.execute false pid).1.balance = g.balance) ∧
    (∀ (gA : Governor) (p2 : Proposal) (transferOk2 : Bool),
      gA.proposals pid = some p2 → p2.executed = true →
      gA.execute transferOk2 pid = (gA, .error .ProposalAlreadyExecuted)) ∧
    ((g.execute true pid).2 = .ok () ∧
      (p.amount ≤ g.balance →
        (g.execute true pid).1.balance + p.amount = g.balance)) := by
  refine ⟨fun transferOk => ?_, ⟨?_, ?_⟩, ?_, ?_, ?_⟩
  · by_cases htok : transferOk <;>
      simp [Governor.execute, hp, hex, ht, hq, hacc, htok, mapInsert]
  · simp [Governor.execute, hp, hex, ht, hq, hacc]
  · simp [Governor.execute, hp, hex, ht, hq, hacc]
  · intro gA p2 transferOk2 hp2 hex2
    simp [Governor.execute, hp2, hex2]
  · simp [Governor.execute, hp, hex, ht, hq, hacc]
  · intro hle
    have hb : (g.execute true pid).1.balance = g.balance - p.amount := by
      simp [Governor.execute, hp, hex, ht, hq, hacc]
    rw [hb]
    omega

/-- Witness for C2: with tally 35/29 and quorum 50, a failed transfer
returns `TransferFailed`, the flag stays set so the retry fails with
`ProposalAlreadyExecuted`, and a successful transfer pays 100 out of
the 1000 treasury. -/
theorem execute_flag_before_transfer_witness :
    ((sampleGov (some { for_votes := 35, against_vote := 29 })).execute
        false 1).2 = .error .TransferFailed ∧
      ((sampleGov (some { for_votes := 35, against_vote := 29 })).execute
        false 1).1.balance = 1000 ∧
      (((sampleGov (some { for_votes := 35, against_vote := 29 })).execute
          false 1).1.execute true 1).2 = .error .ProposalAlreadyExecuted ∧
      ((sampleGov (some { for_votes := 35, against_vote := 29 })).execute
        true 1).1.balance + 100 = 1000 := by
  have h := execute_flag_before_transfer
    (sampleGov (some { for_votes := 35, against_vote := 29 })) 1 pEx
    { for_votes := 35, against_vote := 29 }
    (by decide) rfl (by decide) (by decide) (by decide)
  refine ⟨h.2.1.1, by simpa [sampleGov] using h.2.1.2, ?_, ?_⟩
  · have h2 := h.2.2.1 ((sampleGov
        (some { for_votes := 35, against_vote := 29 })).execute false 1).1
      { pEx with executed := true } true (h.1 false) rfl
    rw [h2]
  · have h3 := h.2.2.2.2 (by decide)
    simpa [sampleGov, pEx] using h3

/-- Claim C9: once the `vote` checks pass, the whole call factors as
recording the ballot first and only then folding in the oracle weight:
at the moment of the cross-contract weight call the double-vote marker
`(proposal_id, caller)` is already in the state, and the resulting
ballot set does not depend on the returned weight. -/
theorem vote_ballot_before_oracle (g : Governor) (time caller pid : Nat)
    (v : VoteType) (w : Nat) (p : Proposal)
    (hchecks : g.voteChecks time caller pid = .ok p) :
    g.vote time caller pid v w =
        ((g.recordBallot pid caller).applyWeight p v w, .ok ()) ∧
      (g.recordBallot pid caller).votes (pid, caller) = true ∧
      (∀ w2, (g.vote time caller pid v w).1.votes =
        (g.vote time caller pid v w2).1.votes) := by
  rcases voteChecks_ok_elim g time caller pid p hchecks with ⟨hp, hex, ht, hv⟩
  refine ⟨vote_ok_state g time caller pid p hp hex ht hv v w,
    by simp [Governor.recordBallot, setInsert], fun w2 => ?_⟩
  rw [vote_ok_state g time caller pid p hp hex ht hv v w,
    vote_ok_state g time caller pid p hp hex ht hv v w2]
  simp [Governor.applyWeight]

/-- Witness for C9: concrete first vote on the sample governor; the
ballot `(1, 7)` is recorded in the intermediate state that makes the
oracle call. -/
theorem vote_ballot_before_oracle_witness :
    (sampleGov none).vote 0 7 1 .For 10 =
        (((sampleGov none).recordBallot 1 7).applyWeight pEx .For 10, .ok ()) ∧
      ((sampleGov none).recordBallot 1 7).votes (1, 7) = true := by
  have h := vote_ballot_before_oracle (sampleGov none) 0 7 1 .For 10 pEx rfl
  exact ⟨h.1, h.2.1⟩

/-- Counterexample to claim C7 as stated: the tally map is keyed by the
full `Proposal` record, so two proposals with identical fields share
one tally.  In the twin-proposal run, nobody has voted on proposal 2
(in particular account 7 has no ballot for it), yet the first vote ever
cast on proposal 2 — Against, weight 5 — lands in the tally already
holding proposal 1's 10 For votes: the resulting record is
`(for 10, against 5)`, not a fresh record with the other component 0. -/
theorem vote_shared_tally_counterexample :
    gTwinC.proposals 2 = some pEx ∧
      gTwinC.votes (2, 7) = false ∧
      gTwinC.proposal_votes pEx =
        some { for_votes := 10, against_vote := 0 } ∧
      (gTwinC.vote 0 7 2 .Against 5).2 = .ok () ∧
      (gTwinC.vote 0 7 2 .Against 5).1.proposal_votes pEx =
        some { for_votes := 10, against_vote := 5 } ∧
      ¬ (gTwinC.vote 0 7 2 .Against 5).1.proposal_votes pEx =
        some { for_votes := 0, against_vote := 5 } :=
  ⟨by decide, by decide, by decide, rfl, by decide, by decide⟩

/-- Claim C7 (amended): a successful `vote` adds exactly the oracle
weight to the chosen component of the tally stored at the proposal
record, leaving the other component unchanged, and creates the record
with the other component 0 when no tally is stored at that record yet
(because the map is keyed by the record, twin proposals with identical
fields share one tally, so the first vote for a proposal id may find
votes already accumulated — see the counterexample); no cap is applied
to the added weight, other records are untouched, and tally components
are non-decreasing across all operations. -/
theorem vote_tally_update (g : Governor) (time caller pid : Nat) (v : VoteType)
    (w : Nat) (p : Proposal)
    (hp : g.proposals pid = some p) (hex : p.executed = false)
    (ht : ¬ p.vote_end < time) (hv : g.votes (pid, caller) = false) :
    (g.vote time caller pid v w).2 = .ok () ∧
    (∀ t, g.proposal_votes p = some t →
      (v = .For → (g.vote time caller pid v w).1.proposal_votes p =
        some { for_votes := t.for_votes + w, against_vote := t.against_vote }) ∧
      (v = .Against → (g.vote time caller pid v w).1.proposal_votes p =
        some { for_votes := t.for_votes, against_vote := t.against_vote + w })) ∧
    (g.proposal_votes p = none →
      (v = .For → (g.vote time caller pid v w).1.proposal_votes p =
        some { for_votes := w, against_vote := 0 }) ∧
      (v = .Against → (g.vote time caller pid v w).1.proposal_votes p =
        some { for_votes := 0, against_vote := w })) ∧
    (∀ q, q ≠ p → (g.vote time caller pid v w).1.proposal_votes q =
      g.proposal_votes q) ∧
    (∀ (gA gB : Governor), Step gA gB → ∀ q t, gA.proposal_votes q = some t →
      ∃ t2, gB.proposal_votes q = some t2 ∧
        t.for_votes ≤ t2.for_votes ∧ t.against_vote ≤ t2.against_vote) := by
  rw [vote_ok_state g time caller pid p hp hex ht hv v w]
  refine ⟨rfl, fun t ht2 => ⟨fun hvv => ?_, fun hvv => ?_⟩,
    fun ht2 => ⟨fun hvv => ?_, fun hvv => ?_⟩, fun q hq => ?_,
    fun gA gB h q t hq => step_tally_mono gA gB h q t hq⟩
  · subst hvv
    simp [Governor.applyWeight, Governor.recordBallot, mapInsert, ht2]
  · subst hvv
    simp [Governor.applyWeight, Governor.recordBallot, mapInsert, ht2]
  · subst hvv
    simp [Governor.applyWeight, Governor.recordBallot, mapInsert, ht2]
  · subst hvv
    simp [Governor.applyWeight, Governor.recordBallot, mapInsert, ht2]
  · simp [Governor.applyWeight, Governor.recordBallot, mapInsert, hq]

/-- Witness for C7: the first vote on the sample governor (no tally
stored anywhere) creates the record `(for 10, against 0)`. -/
theorem vote_tally_update_witness :
    ((sampleGov none).vote 0 7 1 .For 10).2 = .ok () ∧
      ((sampleGov none).vote 0 7 1 .For 10).1.proposal_votes pEx =
        some { for_votes := 10, against_vote := 0 } := by
  have h := vote_tally_update (sampleGov none) 0 7 1 .For 10 pEx
    (by decide) rfl (by decide) rfl
  exact ⟨h.1, (h.2.2.1 (by decide)).1 rfl⟩

/-- Claim C8: in every reachable state every stored proposal has
`vote_end > vote_start` and `amount > 0`; across any further step,
proposals are never deleted, no field other than `executed` is ever
mutated, and `executed` never goes back from `true` to `false` (so it
transitions false→true at most once). -/
theorem proposal_invariants (gr : Governor) (hg : Reachable gr) :
    (∀ pid p, gr.proposals pid = some p →
      p.vote_start < p.vote_end ∧ 0 < p.amount) ∧
    (∀ gB, Step gr gB → ∀ pid p, gr.proposals pid = some p →
      ∃ p2, gB.proposals pid = some p2 ∧ p2.«to» = p.«to» ∧
        p2.amount = p.amount ∧ p2.vote_start = p.vote_start ∧
        p2.vote_end = p.vote_end ∧
        (p.executed = true → p2.executed = true)) := by
  have hinv := reachable_govInv gr hg
  exact ⟨fun pid p hp => ⟨(hinv pid p hp).2.2.1, (hinv pid p hp).2.2.2⟩,
    fun gB hstep pid p hp => step_preserves_proposal gr gB hinv hstep pid p hp⟩

/-- Witness for C8: the proposal stored by a first `propose` on a fresh
governor has a nonempty window and positive amount. -/
theorem proposal_invariants_witness :
    pEx.vote_start < pEx.vote_end ∧ 0 < pEx.amount := by
  have hreach : Reachable gTwinA :=
    Reachable.step (Governor.new 1 50 1000) gTwinA (Reachable.new 1 50 1000)
      (Step.propose (Governor.new 1 50 1000) 0 9 100 1)
  exact (proposal_invariants gTwinA hreach).1 1 pEx (by decide)

/-- Counterexample to claim C10 as stated: `new(0)` is a reachable
token state with `total_supply = 0`, where every account's balance (0)
has already reached `total_supply` — and where the source's
`weight` would divide by zero.  The claim's guarantee therefore needs
`total_supply > 0`. -/
theorem weight_zero_supply_counterexample :
    TokenReachable (GovernanceToken.new 0) ∧
      (GovernanceToken.new 0).balances 0 = (GovernanceToken.new 0).total_supply :=
  ⟨TokenReachable.new 0, rfl⟩

/-- Reachable token states keep every balance at most the circulating
supply, which stays strictly below a positive total supply. -/
lemma tokenReachable_inv (t : GovernanceToken) (h : TokenReachable t) :
    (∀ a, t.balances a ≤ t.circulating_supply) ∧
      (t.circulating_supply = 0 ∨
        t.circulating_supply < t.total_supply) := by
  induction h with
  | new s => exact ⟨fun a => le_refl 0, Or.inl rfl⟩
  | step t1 r amt _ ih =>
    unfold GovernanceToken.transfer_to
    by_cases hc : amt + t1.circulating_supply < t1.total_supply
    · rw [if_pos hc]
      refine ⟨fun a => ?_, Or.inr (by simpa using (by omega : t1.circulating_supply + amt < t1.total_supply))⟩
      by_cases ha : a = r
      · simp only [ha, if_pos rfl]
        have := ih.1 r
        simp [GovernanceToken.balance_of]
        omega
      · simp only [if_neg ha]
        have := ih.1 a
        simp
        omega
    · rw [if_neg hc]
      exact ih

/-- Claim C10 (amended): for every token state reachable via `new` and
`transfer_to` calls whose `total_supply` is positive (i.e. the token
was constructed with positive `initial_supply` — without this the
source's `weight` divides by zero, see the counterexample), every
account's balance stays strictly below `total_supply`, and `weight`
returns exactly `balance * 100 / total_supply`, a value in `[0, 100]`. -/
theorem weight_in_range (t : GovernanceToken) (h : TokenReachable t)
    (hpos : 0 < t.total_supply) (a : Nat) :
    t.balances a < t.total_supply ∧
      t.weight a = t.balances a * 100 / t.total_supply ∧
      t.weight a ≤ 100 := by
  rcases tokenReachable_inv t h with ⟨hb, hc⟩
  have hlt : t.balances a < t.total_supply := by
    have := hb a
    rcases hc with h0 | h0 <;> omega
  have hdiv : t.balances a * 100 / t.total_supply < 100 := by
    rw [Nat.div_lt_iff_lt_mul hpos]
    omega
  have hmod : t.weight a = t.balances a * 100 / t.total_supply := by
    unfold GovernanceToken.weight
    exact Nat.mod_eq_of_lt (lt_trans hdiv (by norm_num))
  exact ⟨hlt, hmod, by rw [hmod]; omega⟩

/-- Witness for C10 (amended): after dropping 3 of 100 tokens to
account 7, its weight is 3, within `[0, 100]`. -/
theorem weight_in_range_witness :
    ((GovernanceToken.new 100).transfer_to 7 3).weight 7 = 3 ∧
      ((GovernanceToken.new 100).transfer_to 7 3).weight 7 ≤ 100 := by
  have h := weight_in_range ((GovernanceToken.new 100).transfer_to 7 3)
    (TokenReachable.step (GovernanceToken.new 100) 7 3 (TokenReachable.new 100))
    (by decide) 7
  exact ⟨by rw [h.2.1]; decide, h.2.2⟩

end InvestmentDao
